import Mathlib

/-!
Verification of the room-booking backend (be_ms).

Shallow embedding of the booking transaction engine:
- calendar dates are modelled as UTC day indices (natural numbers); one unit
  step is one day, so normalizeDate is the identity on day indices;
- the MongoDB Availability collection is a list of records, mutated only
  through the conditional-update operation used by the booking handler;
- the Redis store (locks and idempotency keys) is a list of
  (key, value, expiry) entries together with an explicit current time;
- monetary amounts are integer cents, unit counts are integers (the Mongo
  number fields can in principle hold any integer, so the non-negativity
  invariant is a real statement, not a typing artifact).
-/

namespace RoomBooking

/-- One record of the Availability collection (AvailabilitySchema in
dbUtils.js): per-room per-day inventory counters. Unit counts are integers
because the underlying store does not enforce a type-level lower bound. -/
structure AvailRec where
  room_id : Nat
  date : Nat
  total_units : Int
  available_units : Int
deriving DecidableEq, Repr

abbrev AvailDB := List AvailRec

/-- The composite key of an availability record; the schema has a unique
compound index on (room_id, date). -/
def keyOf (r : AvailRec) : Nat × Nat := (r.room_id, r.date)

/-- The uniqueness invariant enforced by the compound unique index
on (room_id, date): no two records share a key. -/
def keyed (db : AvailDB) : Prop := (db.map keyOf).Nodup

instance (db : AvailDB) : Decidable (keyed db) := by
  unfold keyed; infer_instance

/-- Lookup of the (first) record with the given room and date, the shallow
embedding of a findOne on the compound key. -/
def findRec : AvailDB → Nat → Nat → Option AvailRec
  | [], _, _ => none
  | r :: rest, room, d =>
    if r.room_id = room ∧ r.date = d then some r else findRec rest room d

/-- normalizeDate (dbUtils.js): dates are already day indices in the model,
so normalization to midnight UTC is the identity. -/
def normalizeDate (d : Nat) : Nat := d

/-- getDateRange (dbUtils.js): the source loop pushes current and advances
one day while current <= end, so the result is the list of day indices from
startDate to endDate inclusive at both endpoints (empty when start > end). -/
def getDateRange (startDate endDate : Nat) : List Nat :=
  (List.range (endDate + 1 - startDate)).map (fun i => startDate + i)

/-- The conditional decrement used by the booking day loop
(Availability.updateOne with filter available_units >= qty and update
$inc available_units by -qty, api.js lines 350-357): updates the first
matching record, returns whether modifiedCount was nonzero. -/
def tryDecrement (db : AvailDB) (room qty d : Nat) : AvailDB × Bool :=
  match db with
  | [] => ([], false)
  | r :: rest =>
    if r.room_id = room ∧ r.date = d ∧ (qty : Int) ≤ r.available_units then
      ({ r with available_units := r.available_units - qty } :: rest, true)
    else
      let p := tryDecrement rest room qty d
      (r :: p.1, p.2)

/-- The sequential day loop of POST /api/v1/booking (api.js lines 349-368):
tryDecrement each date in order; stop at the first failure, reporting the
failing date. Each update is individually durable (no compensation here;
rollback, when it happens, is the transaction abort in the handler). -/
def decrementDays (db : AvailDB) (room qty : Nat) : List Nat → AvailDB × Option Nat
  | [] => (db, none)
  | d :: ds =>
    let p := tryDecrement db room qty d
    if p.2 then decrementDays p.1 room qty ds else (p.1, some d)

/-- Availability invariant from the spec and the schema declarations:
units are non-negative and available never exceeds total. -/
def availInv (db : AvailDB) : Prop :=
  ∀ r ∈ db, 0 ≤ r.available_units ∧ r.available_units ≤ r.total_units

instance (db : AvailDB) : Decidable (availInv db) := by
  unfold availInv; infer_instance

/-! Redis model. The single Redis keyspace holds both idempotency entries
(prefixed idem:) and locks (prefixed lock:room:). An entry is a key with a
value and an absolute expiry instant; an entry whose expiry is not in the
future is semantically absent (GET returns null, SET NX succeeds over it). -/

abbrev RedisStore := List (String × String × Nat)

/-- Raw lookup of the first entry with the given key. -/
def rfind : RedisStore → String → Option (String × Nat)
  | [], _ => none
  | e :: rest, k => if e.1 = k then some e.2 else rfind rest k

/-- GET: the stored value, provided the entry has not expired. -/
def rget (st : RedisStore) (now : Nat) (k : String) : Option String :=
  match rfind st k with
  | some (v, exp) => if now < exp then some v else none
  | none => none

/-- DEL: remove every entry with the given key. -/
def rdel (st : RedisStore) (k : String) : RedisStore :=
  st.filter (fun e => decide (e.1 ≠ k))

/-- SET k v with expiry: overwrite whatever was stored under k. -/
def rsetEntry (st : RedisStore) (k v : String) (exp : Nat) : RedisStore :=
  (k, v, exp) :: rdel st k

/-- acquireLock (redis.js): SET lockKey token PX timeout NX, i.e.
set-if-absent with a lease; succeeds iff no unexpired entry exists. -/
def acquireLock (st : RedisStore) (now : Nat) (lockKey token : String)
    (timeout : Nat) : RedisStore × Bool :=
  match rget st now lockKey with
  | some _ => (st, false)
  | none => (rsetEntry st lockKey token (now + timeout), true)

/-- releaseLock (redis.js): GET the stored token and DEL only when it equals
the caller-supplied token; otherwise leave the store untouched. -/
def releaseLock (st : RedisStore) (now : Nat) (lockKey token : String) : RedisStore :=
  match rget st now lockKey with
  | some cur => if cur = token then rdel st lockKey else st
  | none => st

/-- getIdempotencyKey (redis.js): GET of the prefixed idempotency key. -/
def getIdempotencyKey (st : RedisStore) (now : Nat) (k : String) : Option String :=
  rget st now ("idem:" ++ k)

/-- setIdempotencyKey (redis.js): SET of the prefixed key with EX ttl. -/
def setIdempotencyKey (st : RedisStore) (now : Nat) (k v : String) (ttl : Nat) : RedisStore :=
  rsetEntry st ("idem:" ++ k) v (now + ttl)

/-! Data model of rooms and bookings. Fields not consulted by the verified
operations (name, description, location, floor, capacity, amenities, images,
timestamps) are omitted from the record types; they are inert payload. -/

/-- A room (RoomSchema): identity, nightly price in cents, active flag. -/
structure Room where
  id : Nat
  price_cents : Nat
  is_active : Bool
deriving DecidableEq, Repr

/-- Room.findOne with filter _id = rid and is_active = true
(api.js line 332), also standing for the $lookup-then-$match-is_active
stage of the search pipeline when room ids are unique. -/
def findRoom : List Room → Nat → Option Room
  | [], _ => none
  | rm :: rest, rid =>
    if rm.id = rid ∧ rm.is_active = true then some rm else findRoom rest rid

inductive BookingStatus where
  | pending
  | confirmed
  | cancelled
  | completed
deriving DecidableEq, Repr

/-- A booking record (BookingSchema). The id is the creation index in the
bookings list, standing for the Mongo ObjectId. -/
structure Booking where
  id : Nat
  user_id : Nat
  room_id : Nat
  start_date : Nat
  end_date : Nat
  quantity : Nat
  total_price_cents : Nat
  status : BookingStatus
  notes : Option String := none
  contact_email : Option String := none
  cancellation_reason : Option String := none
  cancelled_at : Option Nat := none
deriving DecidableEq, Repr

/-- The BookingSchema pre-save hook (dbUtils.js lines 812-816): saving
throws unless end_date is strictly after start_date. -/
def bookingPreSaveOk (b : Booking) : Bool :=
  decide (b.start_date < b.end_date)

/-- The nights virtual of BookingSchema (dbUtils.js lines 819-821):
ceil((end_date - start_date) / day) which on normalized day indices is the
plain difference. -/
def bookingNights (b : Booking) : Nat :=
  b.end_date - b.start_date

/-- The cancel instance method of BookingSchema (dbUtils.js lines 829-842):
rejects an already-cancelled booking, otherwise sets status, reason and
timestamp and saves. The method body ends with the comment about restoring
availability but performs no availability write. Returns none for the
thrown already-cancelled error; save re-runs the pre-save hook. -/
def Booking.cancel (b : Booking) (reason : String) (now : Nat) : Option Booking :=
  if b.status = BookingStatus.cancelled then
    none
  else
    let b' := { b with
      status := BookingStatus.cancelled
      cancellation_reason := some reason
      cancelled_at := some now }
    if bookingPreSaveOk b' then some b' else none

/-- The whole persistent and ephemeral state touched by the engine. -/
structure Sys where
  rooms : List Room
  avail : AvailDB
  bookings : List Booking
  redis : RedisStore
deriving DecidableEq, Repr

/-- The validated booking request reaching the handler body. -/
structure BookingReq where
  room_id : Nat
  start_date : Nat
  end_date : Nat
  quantity : Nat
  notes : Option String := none
  contact_email : Option String := none
  idemKey : Option String := none
deriving DecidableEq, Repr

/-- The caller-visible outcomes of POST /api/v1/booking, named after the
HTTP responses the handler sends. -/
inductive BookingResult where
  /-- 200 with the previously produced booking id (idempotent replay). -/
  | idempotent (prevId : String)
  /-- 423 Resource busy. -/
  | lockBusy
  /-- 403 contact_email mismatch. -/
  | forbidden
  /-- 404 Room not found or inactive. -/
  | roomNotFound
  /-- 409 Insufficient availability for the given date. -/
  | insufficient (d : Nat)
  /-- 500 server error (the pre-save hook throw lands here since its
  plain Error is neither ValidationError nor CastError). -/
  | serverError
  /-- 201 with the created booking. -/
  | created (b : Booking)
deriving DecidableEq, Repr

/-- validateDateRange middleware (api.js lines 93-112): rejects a start in
the past, an end before the start (strictly before: equal dates pass), and
a span of more than 365 days. Dates are day indices and today is the
current day index. -/
def validateDateRange (today s e : Nat) : Bool :=
  if s < today then false
  else if e < s then false
  else if 365 < e - s then false
  else true

/-- The quantity pre-check of the booking route (api.js lines 285-295). -/
def quantityOk (qty : Nat) : Bool :=
  if qty < 1 then false
  else if 100 < qty then false
  else true

/-- The contact_email ownership check (api.js lines 321-329): a supplied
contact email must match the authenticated user email (JS stringifies a
null user email to the literal text null before comparing). -/
def contactEmailCheck (userEmail contact : Option String) : Option String × Bool :=
  match contact with
  | some c =>
    let u := match userEmail with
      | some s => s.toLower
      | none => "null"
    if c.toLower = u then (some c, true) else (some c, false)
  | none => (userEmail, true)

/-- The critical section of the booking handler, the part running between
lock acquisition and lock release (api.js lines 318-411): contact check,
room lookup, price computation over getDateRange, the sequential
conditional-decrement day loop, and booking creation guarded by the
pre-save hook. Returns the availability ledger after the section, the
created booking if any, and the outcome. The txn flag is
serverInfo.transactionsSupported: when true, a failure aborts the Mongo
transaction and the ledger reverts to its pre-attempt contents; when
false each decrement is individually durable and failures leave the
earlier decrements in place. -/
def bookingCritical (txn : Bool) (userId : Nat) (userEmail : Option String)
    (sys : Sys) (req : BookingReq) : AvailDB × Option Booking × BookingResult :=
  match contactEmailCheck userEmail req.contact_email with
  | (_, false) => (sys.avail, none, BookingResult.forbidden)
  | (contactEmail, true) =>
    match findRoom sys.rooms req.room_id with
    | none => (sys.avail, none, BookingResult.roomNotFound)
    | some rm =>
      let startDate := normalizeDate req.start_date
      let endDate := normalizeDate req.end_date
      let days := getDateRange startDate endDate
      let nights := days.length
      let totalPrice := rm.price_cents * nights * req.quantity
      let dec := decrementDays sys.avail req.room_id req.quantity days
      match dec.2 with
      | some d =>
        ((if txn then sys.avail else dec.1), none, BookingResult.insufficient d)
      | none =>
        let b : Booking := {
          id := sys.bookings.length
          user_id := userId
          room_id := req.room_id
          start_date := startDate
          end_date := endDate
          quantity := req.quantity
          total_price_cents := totalPrice
          status := BookingStatus.confirmed
          notes := req.notes
          contact_email := contactEmail }
        if bookingPreSaveOk b then
          (dec.1, some b, BookingResult.created b)
        else
          ((if txn then sys.avail else dec.1), none, BookingResult.serverError)

/-- POST /api/v1/booking handler body (api.js lines 296-428): idempotency
short-circuit, per-room lock acquisition with lease, the critical section,
idempotency record storage on success, and the finally-release of the lock. -/
def postBooking (txn : Bool) (now : Nat) (lockToken : String)
    (lockTimeout idemTTL : Nat) (userId : Nat) (userEmail : Option String)
    (sys : Sys) (req : BookingReq) : Sys × BookingResult :=
  let idemHit : Option String :=
    match req.idemKey with
    | some k => getIdempotencyKey sys.redis now k
    | none => none
  match idemHit with
  | some prev => (sys, BookingResult.idempotent prev)
  | none =>
    let lockKey := "lock:room:" ++ toString req.room_id
    let acq := acquireLock sys.redis now lockKey lockToken lockTimeout
    if acq.2 = false then
      ({ sys with redis := acq.1 }, BookingResult.lockBusy)
    else
      let crit := bookingCritical txn userId userEmail sys req
      match crit.2.1 with
      | some b =>
        let redis2 :=
          match req.idemKey with
          | some k => setIdempotencyKey acq.1 now k (toString b.id) idemTTL
          | none => acq.1
        ({ rooms := sys.rooms
           avail := crit.1
           bookings := sys.bookings ++ [b]
           redis := releaseLock redis2 now lockKey lockToken },
         crit.2.2)
      | none =>
        ({ rooms := sys.rooms
           avail := crit.1
           bookings := sys.bookings
           redis := releaseLock acq.1 now lockKey lockToken },
         crit.2.2)

/-- The cancel operation at system level: look up the booking by index and
apply the cancel instance method; the availability ledger is not touched,
mirroring the method body. -/
def cancelBooking (sys : Sys) (i : Nat) (reason : String) (now : Nat) : Sys × Bool :=
  match sys.bookings[i]? with
  | none => (sys, false)
  | some b =>
    match b.cancel reason now with
    | none => (sys, false)
    | some b' => ({ sys with bookings := sys.bookings.set i b' }, true)

/-! Search projection, GET /api/v1/rooms/search (api.js lines 219-282). -/

/-- The first $match stage of the search aggregation: availability records
with date in the inclusive query range and available_units strictly
positive. Zero-availability days are dropped here, before grouping. -/
def searchMatch (db : AvailDB) (s e : Nat) : AvailDB :=
  db.filter (fun r => decide (s ≤ r.date ∧ r.date ≤ e ∧ 0 < r.available_units))

/-- The group keys of the $group stage: the distinct room ids of the
matched records, in order of first occurrence. -/
def roomIds (recs : AvailDB) : List Nat :=
  (recs.map (fun r => r.room_id)).dedup

/-- The minAvailable accumulator of the $group stage for one room:
minimum of available_units over the records of that room, none when the
room has no matched record. -/
def groupMin (recs : AvailDB) (rid : Nat) : Option Int :=
  match (recs.filter (fun r => decide (r.room_id = rid))).map
      (fun r => r.available_units) with
  | [] => none
  | v :: vs => some (vs.foldl min v)

/-- The totalDays accumulator of the $group stage for one room. -/
def groupCount (recs : AvailDB) (rid : Nat) : Nat :=
  (recs.filter (fun r => decide (r.room_id = rid))).length

/-- The search pipeline: match, group, $match minAvailable > 0, $lookup of
the room joined with $match is_active (findRoom, assuming unique room
ids), projected to the room and its minAvailable. The final $sort by
location and name only reorders the output and is not modelled; the
verified properties are about membership and the reported minimum. -/
def searchRooms (rooms : List Room) (db : AvailDB) (s e : Nat) : List (Room × Int) :=
  (roomIds (searchMatch db s e)).filterMap (fun rid =>
    match groupMin (searchMatch db s e) rid with
    | none => none
    | some m =>
      if 0 < m then
        match findRoom rooms rid with
        | some rm => some (rm, m)
        | none => none
      else none)

/-- Modelled from the spec: the summarize contract of section 4.2, which
the search handler is claimed to refine. minAvailable is the minimum of
available_units across the inclusive day-set of the range, a day without a
record contributing zero available units; this definition follows the
words of the spec and is compared against searchRooms, which is the
embedding of the source pipeline. -/
def specDayAvail (db : AvailDB) (rid d : Nat) : Int :=
  match findRec db rid d with
  | some r => r.available_units
  | none => 0

/-- Modelled from the spec: minimum available_units over the inclusive
day-set from s to e (zero for an empty day-set). -/
def specRangeMin (db : AvailDB) (rid s e : Nat) : Int :=
  match (getDateRange s e).map (specDayAvail db rid) with
  | [] => 0
  | v :: vs => vs.foldl min v

/-! Operation sequences, for the state invariant. -/

/-- One engine operation: a booking attempt or a cancellation. -/
inductive Op where
  | book (txn : Bool) (now : Nat) (lockToken : String)
      (lockTimeout idemTTL : Nat) (userId : Nat) (userEmail : Option String)
      (req : BookingReq)
  | cancelOp (i : Nat) (reason : String) (now : Nat)

/-- Apply one operation to the system state. -/
def applyOp (sys : Sys) : Op → Sys
  | Op.book txn now tok lt it uid mail req =>
    (postBooking txn now tok lt it uid mail sys req).1
  | Op.cancelOp i reason now => (cancelBooking sys i reason now).1

/-- Apply a sequence of operations in order. -/
def applyOps (sys : Sys) (ops : List Op) : Sys :=
  ops.foldl applyOp sys

/-! Concurrency model for two booking attempts on the same room. The room
lock serializes attempts: either the two critical sections run one after
the other (the lock is acquired and released around each), or one attempt
arrives while the other holds the lock and is turned away with 423
immediately, performing no write (api.js line 313). These are the
reachable interleavings at the granularity of the lock. -/

inductive Sched where
  | firstThenSecond
  | secondThenFirst
  | firstHoldsLock
  | secondHoldsLock
deriving DecidableEq, Repr

/-- Outcome of running two booking attempts under a given interleaving:
final state and the two caller-visible results. In the two serialized
schedules the second attempt sees the state left by the first; in the
holds-lock schedules the excluded attempt observes lockBusy and writes
nothing. -/
def runPair (txn : Bool) (now : Nat) (tok1 tok2 : String)
    (lockTimeout idemTTL : Nat) (u1 u2 : Nat) (mail1 mail2 : Option String)
    (sys : Sys) (req1 req2 : BookingReq) :
    Sched → Sys × BookingResult × BookingResult
  | Sched.firstThenSecond =>
    let p1 := postBooking txn now tok1 lockTimeout idemTTL u1 mail1 sys req1
    let p2 := postBooking txn now tok2 lockTimeout idemTTL u2 mail2 p1.1 req2
    (p2.1, p1.2, p2.2)
  | Sched.secondThenFirst =>
    let p2 := postBooking txn now tok2 lockTimeout idemTTL u2 mail2 sys req2
    let p1 := postBooking txn now tok1 lockTimeout idemTTL u1 mail1 p2.1 req1
    (p1.1, p1.2, p2.2)
  | Sched.firstHoldsLock =>
    let p1 := postBooking txn now tok1 lockTimeout idemTTL u1 mail1 sys req1
    (p1.1, p1.2, BookingResult.lockBusy)
  | Sched.secondHoldsLock =>
    let p2 := postBooking txn now tok2 lockTimeout idemTTL u2 mail2 sys req2
    (p2.1, BookingResult.lockBusy, p2.2)

/-- A booking attempt succeeded. -/
def isSuccess : BookingResult → Prop
  | BookingResult.created _ => True
  | _ => False

instance (r : BookingResult) : Decidable (isSuccess r) := by
  cases r <;> (unfold isSuccess; infer_instance)

/-! Concrete scenarios used below. Day indices 20423, 20424 and 20425 are
2025-12-01, 2025-12-02 and 2025-12-03 counted as days since 1970-01-01. -/

/-- An active room with a nightly price of 100 cents. -/
def exRoom : Room := { id := 1, price_cents := 100, is_active := true }

/-- Three December days with five units each. -/
def exAvail3 : AvailDB :=
  [ { room_id := 1, date := 20423, total_units := 5, available_units := 5 },
    { room_id := 1, date := 20424, total_units := 5, available_units := 5 },
    { room_id := 1, date := 20425, total_units := 5, available_units := 5 } ]

def exSys3 : Sys := { rooms := [exRoom], avail := exAvail3, bookings := [], redis := [] }

/-- The booking request of the day-set scenario in the spec:
2025-12-01 through 2025-12-03, two units. -/
def exReqDec : BookingReq :=
  { room_id := 1, start_date := 20423, end_date := 20425, quantity := 2 }

/-- Two days where the second has no remaining units. -/
def exAvailC2 : AvailDB :=
  [ { room_id := 1, date := 10, total_units := 5, available_units := 5 },
    { room_id := 1, date := 11, total_units := 5, available_units := 0 } ]

def exSysC2 : Sys := { rooms := [exRoom], avail := exAvailC2, bookings := [], redis := [] }

def exReqC2 : BookingReq :=
  { room_id := 1, start_date := 10, end_date := 11, quantity := 1 }

/-- A single-day ledger with five units, used for the equal-dates request. -/
def exAvailC10 : AvailDB :=
  [ { room_id := 1, date := 10, total_units := 5, available_units := 5 } ]

def exSysC10 : Sys := { rooms := [exRoom], avail := exAvailC10, bookings := [], redis := [] }

/-- A store holding a previous result for idempotency token abc. -/
def exSysC3 : Sys :=
  { rooms := [exRoom], avail := exAvailC10, bookings := [],
    redis := [("idem:abc", "42", 100)] }

def exReqC3 : BookingReq :=
  { room_id := 1, start_date := 10, end_date := 11, quantity := 1,
    idemKey := some "abc" }

/-- A range whose first day has zero units and whose second day has five. -/
def exAvailC6 : AvailDB :=
  [ { room_id := 1, date := 10, total_units := 5, available_units := 0 },
    { room_id := 1, date := 11, total_units := 5, available_units := 5 } ]

/-- A confirmed two-night booking whose nights were already taken out of
exAvail3 (days 20423 and 20424 would have been decremented at creation). -/
def exBookingC7 : Booking :=
  { id := 0, user_id := 7, room_id := 1, start_date := 20423, end_date := 20425,
    quantity := 1, total_price_cents := 300, status := BookingStatus.confirmed }

def exSysC7 : Sys :=
  { rooms := [exRoom], avail := exAvail3, bookings := [exBookingC7], redis := [] }

/-- A single day with two units, against two concurrent requests for three
units each. -/
def exAvailC9 : AvailDB :=
  [ { room_id := 1, date := 10, total_units := 2, available_units := 2 } ]

def exSysC9 : Sys := { rooms := [exRoom], avail := exAvailC9, bookings := [], redis := [] }

def exReqC9 : BookingReq :=
  { room_id := 1, start_date := 10, end_date := 11, quantity := 3 }

/-! Basic lemmas about the day range. -/

theorem mem_getDateRange {s e d : Nat} :
    d ∈ getDateRange s e ↔ s ≤ d ∧ d ≤ e := by
  unfold getDateRange
  simp only [List.mem_map, List.mem_range]
  constructor
  · rintro ⟨i, hi, rfl⟩
    omega
  · rintro ⟨h1, h2⟩
    exact ⟨d - s, by omega, by omega⟩

theorem getDateRange_nodup (s e : Nat) : (getDateRange s e).Nodup := by
  unfold getDateRange
  exact (List.nodup_range _).map (fun a b h => by omega)

theorem length_getDateRange (s e : Nat) :
    (getDateRange s e).length = e + 1 - s := by
  unfold getDateRange
  simp

/-! Basic lemmas about record lookup. -/

theorem findRec_key {db : AvailDB} {room d : Nat} {r : AvailRec}
    (h : findRec db room d = some r) : r.room_id = room ∧ r.date = d := by
  induction db with
  | nil => simp [findRec] at h
  | cons a rest ih =>
    unfold findRec at h
    split at h
    · cases h; assumption
    · exact ih h

theorem findRec_mem {db : AvailDB} {room d : Nat} {r : AvailRec}
    (h : findRec db room d = some r) : r ∈ db := by
  induction db with
  | nil => simp [findRec] at h
  | cons a rest ih =>
    unfold findRec at h
    split at h
    · cases h; exact List.mem_cons_self _ _
    · exact List.mem_cons_of_mem _ (ih h)

theorem findRec_none_of_not_memKey {db : AvailDB} {room d : Nat}
    (h : (room, d) ∉ db.map keyOf) : findRec db room d = none := by
  induction db with
  | nil => rfl
  | cons a rest ih =>
    unfold findRec
    simp only [List.map_cons, List.mem_cons] at h
    push_neg at h
    split
    · rename_i hc
      exact absurd (by simp [keyOf, hc.1, hc.2]) h.1
    · exact ih h.2

/-! Lemmas about the conditional decrement. -/

theorem tryDecrement_map_keyOf (db : AvailDB) (room qty d : Nat) :
    ((tryDecrement db room qty d).1).map keyOf = db.map keyOf := by
  induction db with
  | nil => rfl
  | cons a rest ih =>
    unfold tryDecrement
    split
    · simp [keyOf]
    · simpa [keyOf] using ih

theorem tryDecrement_keyed {db : AvailDB} (room qty d : Nat) (h : keyed db) :
    keyed (tryDecrement db room qty d).1 := by
  unfold keyed
  rw [tryDecrement_map_keyOf]
  exact h

theorem tryDecrement_fail_eq {db : AvailDB} {room qty d : Nat}
    (h : (tryDecrement db room qty d).2 = false) :
    (tryDecrement db room qty d).1 = db := by
  induction db with
  | nil => rfl
  | cons a rest ih =>
    by_cases hc : a.room_id = room ∧ a.date = d ∧ (qty : Int) ≤ a.available_units
    · simp [tryDecrement, if_pos hc] at h
    · simp only [tryDecrement, if_neg hc] at h ⊢
      rw [ih h]

theorem tryDecrement_findRec_other {db : AvailDB} {room qty d room' d' : Nat}
    (h : ¬(room' = room ∧ d' = d)) :
    findRec (tryDecrement db room qty d).1 room' d' = findRec db room' d' := by
  induction db with
  | nil => rfl
  | cons a rest ih =>
    by_cases hc : a.room_id = room ∧ a.date = d ∧ (qty : Int) ≤ a.available_units
    · have hne : ¬(a.room_id = room' ∧ a.date = d') := by
        rintro ⟨h1, h2⟩
        exact h ⟨by rw [← h1, hc.1], by rw [← h2, hc.2.1]⟩
      simp only [tryDecrement, if_pos hc, findRec]
      rw [if_neg (by simpa using hne), if_neg hne]
    · simp only [tryDecrement, if_neg hc, findRec]
      split
      · rfl
      · exact ih

theorem tryDecrement_nokey {db : AvailDB} {room qty d : Nat}
    (h : findRec db room d = none) :
    tryDecrement db room qty d = (db, false) := by
  induction db with
  | nil => rfl
  | cons a rest ih =>
    unfold findRec at h
    split at h
    · cases h
    · rename_i hc
      unfold tryDecrement
      split
      · rename_i hcond
        exact absurd ⟨hcond.1, hcond.2.1⟩ hc
      · simp only [ih h]

theorem keyed_cons {a : AvailRec} {rest : AvailDB} (h : keyed (a :: rest)) :
    keyOf a ∉ rest.map keyOf ∧ keyed rest := by
  unfold keyed at *
  simp only [List.map_cons, List.nodup_cons] at h
  exact h

theorem tryDecrement_flag {db : AvailDB} {room qty d : Nat} {r : AvailRec}
    (hk : keyed db) (h : findRec db room d = some r) :
    (tryDecrement db room qty d).2 = decide ((qty : Int) ≤ r.available_units) := by
  induction db with
  | nil => simp [findRec] at h
  | cons a rest ih =>
    obtain ⟨hnk, hkr⟩ := keyed_cons hk
    by_cases hka : a.room_id = room ∧ a.date = d
    · have hr : a = r := by
        unfold findRec at h
        rw [if_pos hka] at h
        cases h; rfl
      subst hr
      by_cases hq : (qty : Int) ≤ a.available_units
      · simp [tryDecrement, hka.1, hka.2, hq]
      · have hcond : ¬(a.room_id = room ∧ a.date = d ∧ (qty : Int) ≤ a.available_units) := by
          rintro ⟨_, _, hq2⟩
          exact hq hq2
        have hnone : findRec rest room d = none := by
          apply findRec_none_of_not_memKey
          rw [← hka.1, ← hka.2]
          exact fun hm => hnk (by simpa [keyOf] using hm)
        simp only [tryDecrement, if_neg hcond]
        rw [tryDecrement_nokey hnone]
        simp [hq]
    · have hcond : ¬(a.room_id = room ∧ a.date = d ∧ (qty : Int) ≤ a.available_units) := by
        rintro ⟨h1, h2, _⟩
        exact hka ⟨h1, h2⟩
      have h' : findRec rest room d = some r := by
        unfold findRec at h
        rwa [if_neg hka] at h
      simp only [tryDecrement, if_neg hcond]
      exact ih hkr h'

theorem tryDecrement_findRec_self {db : AvailDB} {room qty d : Nat} {r : AvailRec}
    (hk : keyed db) (h : findRec db room d = some r)
    (hq : (qty : Int) ≤ r.available_units) :
    findRec (tryDecrement db room qty d).1 room d =
      some { r with available_units := r.available_units - qty } := by
  induction db with
  | nil => simp [findRec] at h
  | cons a rest ih =>
    obtain ⟨hnk, hkr⟩ := keyed_cons hk
    by_cases hka : a.room_id = room ∧ a.date = d
    · have hr : a = r := by
        unfold findRec at h
        rw [if_pos hka] at h
        cases h; rfl
      subst hr
      have hcond3 : a.room_id = room ∧ a.date = d ∧ (qty : Int) ≤ a.available_units :=
        ⟨hka.1, hka.2, hq⟩
      simp only [tryDecrement, if_pos hcond3, findRec]
      rw [if_pos (by simpa using hka)]
    · have hcond : ¬(a.room_id = room ∧ a.date = d ∧ (qty : Int) ≤ a.available_units) := by
        rintro ⟨h1, h2, _⟩
        exact hka ⟨h1, h2⟩
      have h' : findRec rest room d = some r := by
        unfold findRec at h
        rwa [if_neg hka] at h
      simp only [tryDecrement, if_neg hcond, findRec]
      rw [if_neg hka]
      exact ih hkr h'

theorem tryDecrement_inv {db : AvailDB} {room qty d : Nat}
    (h : availInv db) : availInv (tryDecrement db room qty d).1 := by
  induction db with
  | nil => exact h
  | cons a rest ih =>
    have ha := h a (List.mem_cons_self _ _)
    have hrest : availInv rest := fun r hr => h r (List.mem_cons_of_mem _ hr)
    by_cases hc : a.room_id = room ∧ a.date = d ∧ (qty : Int) ≤ a.available_units
    · simp only [tryDecrement, if_pos hc]
      intro r hr
      rcases List.mem_cons.mp hr with hr | hr
      · subst hr
        constructor
        · simpa using hc.2.2
        · have hq0 : (0 : Int) ≤ (qty : Int) := Int.ofNat_nonneg qty
          have := ha.2
          simp only []
          omega
      · exact hrest r hr
    · simp only [tryDecrement, if_neg hc]
      intro r hr
      rcases List.mem_cons.mp hr with hr | hr
      · subst hr; exact ha
      · exact ih hrest r hr

/-! Lemmas about the sequential day loop. -/

theorem decrementDays_map_keyOf (db : AvailDB) (room qty : Nat) (days : List Nat) :
    ((decrementDays db room qty days).1).map keyOf = db.map keyOf := by
  induction days generalizing db with
  | nil => rfl
  | cons d ds ih =>
    simp only [decrementDays]
    split
    · rw [ih, tryDecrement_map_keyOf]
    · exact tryDecrement_map_keyOf db room qty d

theorem decrementDays_keyed {db : AvailDB} (room qty : Nat) (days : List Nat)
    (h : keyed db) : keyed (decrementDays db room qty days).1 := by
  unfold keyed
  rw [decrementDays_map_keyOf]
  exact h

theorem decrementDays_findRec_other {db : AvailDB} {room qty : Nat}
    {days : List Nat} {room' d' : Nat} (h : ¬(room' = room ∧ d' ∈ days)) :
    findRec (decrementDays db room qty days).1 room' d' = findRec db room' d' := by
  induction days generalizing db with
  | nil => rfl
  | cons d ds ih =>
    have hnot : ¬(room' = room ∧ d' = d) := by
      rintro ⟨h1, h2⟩
      exact h ⟨h1, by simp [h2]⟩
    have hnotds : ¬(room' = room ∧ d' ∈ ds) := by
      rintro ⟨h1, h2⟩
      exact h ⟨h1, by simp [h2]⟩
    simp only [decrementDays]
    split
    · rw [ih hnotds, tryDecrement_findRec_other hnot]
    · exact tryDecrement_findRec_other hnot

theorem decrementDays_inv {db : AvailDB} {room qty : Nat} {days : List Nat}
    (h : availInv db) : availInv (decrementDays db room qty days).1 := by
  induction days generalizing db with
  | nil => exact h
  | cons d ds ih =>
    simp only [decrementDays]
    split
    · exact ih (tryDecrement_inv h)
    · exact tryDecrement_inv h

theorem decrementDays_success_effect {db : AvailDB} {room qty : Nat}
    {days : List Nat} (hk : keyed db) (hnd : days.Nodup)
    (hs : (decrementDays db room qty days).2 = none) :
    ∀ d ∈ days, ∃ rec, findRec db room d = some rec ∧
      (qty : Int) ≤ rec.available_units ∧
      findRec (decrementDays db room qty days).1 room d =
        some { rec with available_units := rec.available_units - qty } := by
  induction days generalizing db with
  | nil =>
    intro d hd
    simp at hd
  | cons d0 ds ih =>
    have hnd0 : d0 ∉ ds := (List.nodup_cons.mp hnd).1
    have hnds : ds.Nodup := (List.nodup_cons.mp hnd).2
    by_cases hflag : (tryDecrement db room qty d0).2 = true
    · have hkey1 : keyed (tryDecrement db room qty d0).1 :=
        tryDecrement_keyed room qty d0 hk
      have hs' : (decrementDays (tryDecrement db room qty d0).1 room qty ds).2 = none := by
        simpa only [decrementDays, if_pos hflag] using hs
      have hrec0 : ∃ rec0, findRec db room d0 = some rec0 := by
        cases hfr : findRec db room d0 with
        | none =>
          rw [tryDecrement_nokey hfr] at hflag
          simp at hflag
        | some rec0 => exact ⟨rec0, rfl⟩
      obtain ⟨rec0, hfr0⟩ := hrec0
      have hq0 : (qty : Int) ≤ rec0.available_units := by
        have hfl := @tryDecrement_flag db room qty d0 rec0 hk hfr0
        rw [hflag] at hfl
        exact of_decide_eq_true hfl.symm
      intro d hd
      rcases List.mem_cons.mp hd with hd | hd
      · subst hd
        refine ⟨rec0, hfr0, hq0, ?_⟩
        have hself := tryDecrement_findRec_self hk hfr0 hq0
        have hother : ¬(room = room ∧ d ∈ ds) := fun hc => hnd0 hc.2
        simp only [decrementDays, if_pos hflag]
        rw [decrementDays_findRec_other hother]
        exact hself
      · have hne : d ≠ d0 := fun hc => hnd0 (hc ▸ hd)
        have hstep : findRec (tryDecrement db room qty d0).1 room d = findRec db room d :=
          tryDecrement_findRec_other (fun hc => hne hc.2)
        obtain ⟨rec, hfr, hq, hfinal⟩ := ih hkey1 hnds hs' d hd
        rw [hstep] at hfr
        refine ⟨rec, hfr, hq, ?_⟩
        simp only [decrementDays, if_pos hflag]
        exact hfinal
    · exfalso
      have : (decrementDays db room qty (d0 :: ds)).2 = some d0 := by
        simp only [decrementDays, if_neg hflag]
      rw [this] at hs
      cases hs

/-! Lemmas about the critical section and the handler. -/

theorem bookingCritical_some_created {txn : Bool} {uid : Nat}
    {mail : Option String} {sys : Sys} {req : BookingReq}
    {av : AvailDB} {ob : Option Booking} {res : BookingResult}
    (h : bookingCritical txn uid mail sys req = (av, ob, res)) :
    (∃ b, ob = some b ∧ res = BookingResult.created b) ∨
    (ob = none ∧ ∀ b, res ≠ BookingResult.created b) := by
  rcases hc : contactEmailCheck mail req.contact_email with ⟨ce, flag⟩
  cases flag
  · simp only [bookingCritical, hc] at h
    obtain ⟨h1, h2, h3⟩ := by simpa using h
    right
    exact ⟨h2.symm, by rintro b rfl; cases h3⟩
  · cases hrm : findRoom sys.rooms req.room_id with
    | none =>
      simp only [bookingCritical, hc, hrm] at h
      obtain ⟨h1, h2, h3⟩ := by simpa using h
      right
      exact ⟨h2.symm, by rintro b rfl; cases h3⟩
    | some rm =>
      simp only [bookingCritical, hc, hrm, normalizeDate] at h
      cases hdec : (decrementDays sys.avail req.room_id req.quantity
          (getDateRange req.start_date req.end_date)).2 with
      | some d =>
        rw [hdec] at h
        obtain ⟨h1, h2, h3⟩ := by simpa using h
        right
        exact ⟨h2.symm, by rintro b rfl; cases h3⟩
      | none =>
        rw [hdec] at h
        simp only [] at h
        split at h
        · obtain ⟨h1, h2, h3⟩ := by simpa using h
          left
          exact ⟨_, h2.symm, h3.symm⟩
        · obtain ⟨h1, h2, h3⟩ := by simpa using h
          right
          exact ⟨h2.symm, by rintro b rfl; cases h3⟩

theorem bookingCritical_created_inversion {txn : Bool} {uid : Nat}
    {mail : Option String} {sys : Sys} {req : BookingReq}
    {av : AvailDB} {ob : Option Booking} {b : Booking}
    (h : bookingCritical txn uid mail sys req = (av, ob, BookingResult.created b)) :
    ∃ rm, findRoom sys.rooms req.room_id = some rm ∧
      (decrementDays sys.avail req.room_id req.quantity
          (getDateRange req.start_date req.end_date)).2 = none ∧
      av = (decrementDays sys.avail req.room_id req.quantity
          (getDateRange req.start_date req.end_date)).1 ∧
      ob = some b ∧
      b.id = sys.bookings.length ∧ b.user_id = uid ∧ b.room_id = req.room_id ∧
      b.start_date = req.start_date ∧ b.end_date = req.end_date ∧
      b.quantity = req.quantity ∧
      b.total_price_cents =
        rm.price_cents * (getDateRange req.start_date req.end_date).length * req.quantity ∧
      b.status = BookingStatus.confirmed ∧
      req.start_date < req.end_date := by
  rcases hc : contactEmailCheck mail req.contact_email with ⟨ce, flag⟩
  cases flag
  · simp [bookingCritical, hc] at h
  · cases hrm : findRoom sys.rooms req.room_id with
    | none => simp [bookingCritical, hc, hrm] at h
    | some rm =>
      simp only [bookingCritical, hc, hrm, normalizeDate] at h
      cases hdec : (decrementDays sys.avail req.room_id req.quantity
          (getDateRange req.start_date req.end_date)).2 with
      | some d =>
        rw [hdec] at h
        simp at h
      | none =>
        rw [hdec] at h
        simp only [] at h
        split at h
        · rename_i hps
          obtain ⟨h1, h2, h3⟩ := by simpa using h
          subst h3
          refine ⟨rm, rfl, rfl, h1.symm, h2.symm, rfl, rfl, rfl, rfl, rfl, rfl, rfl, rfl, ?_⟩
          simpa [bookingPreSaveOk] using hps
        · simp at h

theorem bookingCritical_insufficient_inversion {txn : Bool} {uid : Nat}
    {mail : Option String} {sys : Sys} {req : BookingReq}
    {av : AvailDB} {ob : Option Booking} {d : Nat}
    (h : bookingCritical txn uid mail sys req = (av, ob, BookingResult.insufficient d)) :
    (decrementDays sys.avail req.room_id req.quantity
        (getDateRange req.start_date req.end_date)).2 = some d ∧
    av = (if txn then sys.avail else
      (decrementDays sys.avail req.room_id req.quantity
          (getDateRange req.start_date req.end_date)).1) ∧
    ob = none := by
  rcases hc : contactEmailCheck mail req.contact_email with ⟨ce, flag⟩
  cases flag
  · simp [bookingCritical, hc] at h
  · cases hrm : findRoom sys.rooms req.room_id with
    | none => simp [bookingCritical, hc, hrm] at h
    | some rm =>
      simp only [bookingCritical, hc, hrm, normalizeDate] at h
      cases hdec : (decrementDays sys.avail req.room_id req.quantity
          (getDateRange req.start_date req.end_date)).2 with
      | some d1 =>
        rw [hdec] at h
        obtain ⟨h1, h2, h3⟩ := by simpa using h
        subst h3
        exact ⟨rfl, h1.symm, h2.symm⟩
      | none =>
        rw [hdec] at h
        simp only [] at h
        split at h
        · simp at h
        · simp at h

theorem bookingCritical_avail_cases (txn : Bool) (uid : Nat)
    (mail : Option String) (sys : Sys) (req : BookingReq) :
    (bookingCritical txn uid mail sys req).1 = sys.avail ∨
    (bookingCritical txn uid mail sys req).1 =
      (decrementDays sys.avail req.room_id req.quantity
          (getDateRange req.start_date req.end_date)).1 := by
  rcases hc : contactEmailCheck mail req.contact_email with ⟨ce, flag⟩
  cases flag
  · left
    simp [bookingCritical, hc]
  · cases hrm : findRoom sys.rooms req.room_id with
    | none =>
      left
      simp [bookingCritical, hc, hrm]
    | some rm =>
      simp only [bookingCritical, hc, hrm, normalizeDate]
      cases hdec : (decrementDays sys.avail req.room_id req.quantity
          (getDateRange req.start_date req.end_date)).2 with
      | some d =>
        cases txn
        · right; rfl
        · left; rfl
      | none =>
        simp only []
        split
        · right; rfl
        · cases txn
          · right; rfl
          · left; rfl
theorem bookingCritical_cases (txn : Bool) (uid : Nat) (mail : Option String)
    (sys : Sys) (req : BookingReq) :
    (∃ b, (bookingCritical txn uid mail sys req).2.1 = some b ∧
      (bookingCritical txn uid mail sys req).2.2 = BookingResult.created b) ∨
    ((bookingCritical txn uid mail sys req).2.1 = none ∧
      ∀ b, (bookingCritical txn uid mail sys req).2.2 ≠ BookingResult.created b) :=
  bookingCritical_some_created rfl

theorem postBooking_created_inversion {txn : Bool} {now : Nat} {tok : String}
    {lt it uid : Nat} {mail : Option String} {sys sys' : Sys}
    {req : BookingReq} {b : Booking}
    (h : postBooking txn now tok lt it uid mail sys req = (sys', BookingResult.created b)) :
    ∃ rm, findRoom sys.rooms req.room_id = some rm ∧
      (decrementDays sys.avail req.room_id req.quantity
          (getDateRange req.start_date req.end_date)).2 = none ∧
      sys'.avail = (decrementDays sys.avail req.room_id req.quantity
          (getDateRange req.start_date req.end_date)).1 ∧
      sys'.bookings = sys.bookings ++ [b] ∧
      b.id = sys.bookings.length ∧ b.user_id = uid ∧ b.room_id = req.room_id ∧
      b.start_date = req.start_date ∧ b.end_date = req.end_date ∧
      b.quantity = req.quantity ∧
      b.total_price_cents =
        rm.price_cents * (getDateRange req.start_date req.end_date).length * req.quantity ∧
      b.status = BookingStatus.confirmed ∧
      req.start_date < req.end_date := by
  unfold postBooking at h
  rcases hk : req.idemKey with _ | k
  all_goals rw [hk] at h
  all_goals try simp only [] at h
  case some =>
    cases hg : getIdempotencyKey sys.redis now k with
    | some prev =>
      rw [hg] at h
      simp at h
    | none =>
      rw [hg] at h
      simp only [] at h
      split at h
      · simp at h
      · rcases bookingCritical_cases txn uid mail sys req with
          ⟨b0, hob, hres⟩ | ⟨hob, hres⟩
        · rw [hob] at h
          simp only [] at h
          have hres2 : (bookingCritical txn uid mail sys req).2.2 =
              BookingResult.created b := congrArg Prod.snd h
          have hb : b0 = b := by
            rw [hres] at hres2
            cases hres2
            rfl
          subst hb
          have hsys := congrArg Prod.fst h
          simp only [] at hsys
          obtain ⟨rm, hrm, hdec, hav, _, hrest⟩ :=
            bookingCritical_created_inversion
              (show bookingCritical txn uid mail sys req =
                ((bookingCritical txn uid mail sys req).1, some b0,
                  BookingResult.created b0) by rw [← hob, ← hres])
          refine ⟨rm, hrm, hdec, ?_, ?_, hrest⟩
          · rw [← hsys]
            exact hav
          · rw [← hsys]
        · rw [hob] at h
          simp only [] at h
          have hres2 : (bookingCritical txn uid mail sys req).2.2 =
              BookingResult.created b := congrArg Prod.snd h
          exact absurd hres2 (hres b)
  case none =>
    split at h
    · simp at h
    · rcases bookingCritical_cases txn uid mail sys req with
        ⟨b0, hob, hres⟩ | ⟨hob, hres⟩
      · rw [hob] at h
        simp only [] at h
        have hres2 : (bookingCritical txn uid mail sys req).2.2 =
            BookingResult.created b := congrArg Prod.snd h
        have hb : b0 = b := by
          rw [hres] at hres2
          cases hres2
          rfl
        subst hb
        have hsys := congrArg Prod.fst h
        simp only [] at hsys
        obtain ⟨rm, hrm, hdec, hav, _, hrest⟩ :=
          bookingCritical_created_inversion
            (show bookingCritical txn uid mail sys req =
              ((bookingCritical txn uid mail sys req).1, some b0,
                BookingResult.created b0) by rw [← hob, ← hres])
        refine ⟨rm, hrm, hdec, ?_, ?_, hrest⟩
        · rw [← hsys]
          exact hav
        · rw [← hsys]
      · rw [hob] at h
        simp only [] at h
        have hres2 : (bookingCritical txn uid mail sys req).2.2 =
            BookingResult.created b := congrArg Prod.snd h
        exact absurd hres2 (hres b)

theorem postBooking_insufficient_inversion {txn : Bool} {now : Nat} {tok : String}
    {lt it uid : Nat} {mail : Option String} {sys sys' : Sys}
    {req : BookingReq} {d : Nat}
    (h : postBooking txn now tok lt it uid mail sys req =
      (sys', BookingResult.insufficient d)) :
    (decrementDays sys.avail req.room_id req.quantity
        (getDateRange req.start_date req.end_date)).2 = some d ∧
    sys'.avail = (if txn then sys.avail else
      (decrementDays sys.avail req.room_id req.quantity
          (getDateRange req.start_date req.end_date)).1) ∧
    sys'.bookings = sys.bookings := by
  unfold postBooking at h
  rcases hk : req.idemKey with _ | k
  all_goals rw [hk] at h
  all_goals try simp only [] at h
  case some =>
    cases hg : getIdempotencyKey sys.redis now k with
    | some prev =>
      rw [hg] at h
      simp at h
    | none =>
      rw [hg] at h
      simp only [] at h
      split at h
      · simp at h
      · rcases bookingCritical_cases txn uid mail sys req with
          ⟨b0, hob, hres⟩ | ⟨hob, hres⟩
        · rw [hob] at h
          simp only [] at h
          have hres2 : (bookingCritical txn uid mail sys req).2.2 =
              BookingResult.insufficient d := congrArg Prod.snd h
          rw [hres] at hres2
          cases hres2
        · rw [hob] at h
          simp only [] at h
          have hres2 : (bookingCritical txn uid mail sys req).2.2 =
              BookingResult.insufficient d := congrArg Prod.snd h
          have hsys := congrArg Prod.fst h
          simp only [] at hsys
          obtain ⟨hdec, hav, -⟩ :=
            bookingCritical_insufficient_inversion
              (show bookingCritical txn uid mail sys req =
                ((bookingCritical txn uid mail sys req).1, none,
                  BookingResult.insufficient d) by rw [← hob, ← hres2])
          refine ⟨hdec, ?_, ?_⟩
          · rw [← hsys]
            exact hav
          · rw [← hsys]
  case none =>
    split at h
    · simp at h
    · rcases bookingCritical_cases txn uid mail sys req with
        ⟨b0, hob, hres⟩ | ⟨hob, hres⟩
      · rw [hob] at h
        simp only [] at h
        have hres2 : (bookingCritical txn uid mail sys req).2.2 =
            BookingResult.insufficient d := congrArg Prod.snd h
        rw [hres] at hres2
        cases hres2
      · rw [hob] at h
        simp only [] at h
        have hres2 : (bookingCritical txn uid mail sys req).2.2 =
            BookingResult.insufficient d := congrArg Prod.snd h
        have hsys := congrArg Prod.fst h
        simp only [] at hsys
        obtain ⟨hdec, hav, -⟩ :=
          bookingCritical_insufficient_inversion
            (show bookingCritical txn uid mail sys req =
              ((bookingCritical txn uid mail sys req).1, none,
                BookingResult.insufficient d) by rw [← hob, ← hres2])
        refine ⟨hdec, ?_, ?_⟩
        · rw [← hsys]
          exact hav
        · rw [← hsys]

theorem postBooking_avail_cases (txn : Bool) (now : Nat) (tok : String)
    (lt it uid : Nat) (mail : Option String) (sys : Sys) (req : BookingReq) :
    (postBooking txn now tok lt it uid mail sys req).1.avail = sys.avail ∨
    (postBooking txn now tok lt it uid mail sys req).1.avail =
      (decrementDays sys.avail req.room_id req.quantity
          (getDateRange req.start_date req.end_date)).1 := by
  have hcrit := bookingCritical_avail_cases txn uid mail sys req
  unfold postBooking
  rcases hk : req.idemKey with _ | k
  · simp only []
    split
    · left; rfl
    · cases hob : (bookingCritical txn uid mail sys req).2.1 with
      | some b0 => simpa using hcrit
      | none => simpa using hcrit
  · simp only []
    cases hg : getIdempotencyKey sys.redis now k with
    | some prev => left; rfl
    | none =>
      simp only []
      split
      · left; rfl
      · cases hob : (bookingCritical txn uid mail sys req).2.1 with
        | some b0 => simpa using hcrit
        | none => simpa using hcrit

theorem cancelBooking_avail (sys : Sys) (i : Nat) (reason : String) (now : Nat) :
    (cancelBooking sys i reason now).1.avail = sys.avail := by
  unfold cancelBooking
  cases hx : sys.bookings[i]? with
  | none => rfl
  | some b =>
    simp only []
    cases hc : b.cancel reason now with
    | none => rfl
    | some b2 => rfl

theorem postBooking_inv {txn : Bool} {now : Nat} {tok : String}
    {lt it uid : Nat} {mail : Option String} {sys : Sys} {req : BookingReq}
    (h : availInv sys.avail) :
    availInv (postBooking txn now tok lt it uid mail sys req).1.avail := by
  rcases postBooking_avail_cases txn now tok lt it uid mail sys req with hc | hc
  · rw [hc]; exact h
  · rw [hc]; exact decrementDays_inv h

theorem postBooking_map_keyOf (txn : Bool) (now : Nat) (tok : String)
    (lt it uid : Nat) (mail : Option String) (sys : Sys) (req : BookingReq) :
    ((postBooking txn now tok lt it uid mail sys req).1.avail).map keyOf =
      sys.avail.map keyOf := by
  rcases postBooking_avail_cases txn now tok lt it uid mail sys req with hc | hc
  · rw [hc]
  · rw [hc]
    exact decrementDays_map_keyOf sys.avail req.room_id req.quantity
      (getDateRange req.start_date req.end_date)

theorem postBooking_keyed {txn : Bool} {now : Nat} {tok : String}
    {lt it uid : Nat} {mail : Option String} {sys : Sys} {req : BookingReq}
    (h : keyed sys.avail) :
    keyed (postBooking txn now tok lt it uid mail sys req).1.avail := by
  unfold keyed
  rw [postBooking_map_keyOf]
  exact h

theorem applyOp_inv {sys : Sys} (op : Op) (h : availInv sys.avail) :
    availInv (applyOp sys op).avail := by
  cases op with
  | book txn now tok lt it uid mail req => exact postBooking_inv h
  | cancelOp i reason now =>
    unfold applyOp
    rw [cancelBooking_avail]
    exact h

theorem applyOps_inv {sys : Sys} (ops : List Op) (h : availInv sys.avail) :
    availInv (applyOps sys ops).avail := by
  induction ops generalizing sys with
  | nil => exact h
  | cons op rest ih => exact ih (applyOp_inv op h)

/-! Lemmas about fold-based minimum, room lookup, and the search pipeline. -/

theorem foldl_min_le_init (vs : List Int) (v : Int) : vs.foldl min v ≤ v := by
  induction vs generalizing v with
  | nil => exact le_refl v
  | cons w ws ih => exact le_trans (ih (min v w)) (min_le_left v w)

theorem foldl_min_le_mem {vs : List Int} {v x : Int} (hx : x ∈ vs) :
    vs.foldl min v ≤ x := by
  induction vs generalizing v with
  | nil => cases hx
  | cons w ws ih =>
    rcases List.mem_cons.mp hx with hx | hx
    · subst hx
      exact le_trans (foldl_min_le_init ws (min v x)) (min_le_right v x)
    · exact ih hx

theorem foldl_min_mem (vs : List Int) (v : Int) : vs.foldl min v ∈ v :: vs := by
  induction vs generalizing v with
  | nil => exact List.mem_singleton.mpr rfl
  | cons w ws ih =>
    have h := ih (min v w)
    simp only [List.foldl]
    rcases List.mem_cons.mp h with h | h
    · rcases min_choice v w with hm | hm
      · exact List.mem_cons.mpr (Or.inl (h.trans hm))
      · exact List.mem_cons.mpr (Or.inr (List.mem_cons.mpr (Or.inl (h.trans hm))))
    · exact List.mem_cons.mpr (Or.inr (List.mem_cons.mpr (Or.inr h)))

theorem le_foldl_min {vs : List Int} {v m : Int}
    (h : ∀ x ∈ v :: vs, m ≤ x) : m ≤ vs.foldl min v := by
  induction vs generalizing v with
  | nil => exact h v (List.mem_singleton.mpr rfl)
  | cons w ws ih =>
    apply ih
    intro x hx
    rcases List.mem_cons.mp hx with hx | hx
    · subst hx
      exact le_min (h v (by simp)) (h w (by simp))
    · exact h x (by simp [hx])

theorem findRoom_some {rooms : List Room} {rid : Nat} {rm : Room}
    (h : findRoom rooms rid = some rm) :
    rm ∈ rooms ∧ rm.id = rid ∧ rm.is_active = true := by
  induction rooms with
  | nil => cases h
  | cons a rest ih =>
    unfold findRoom at h
    split at h
    · rename_i hc
      cases h
      exact ⟨List.mem_cons_self _ _, hc.1, hc.2⟩
    · obtain ⟨h1, h2, h3⟩ := ih h
      exact ⟨List.mem_cons_of_mem _ h1, h2, h3⟩

theorem findRoom_of_mem {rooms : List Room} {rm : Room}
    (hu : (rooms.map Room.id).Nodup) (hm : rm ∈ rooms)
    (ha : rm.is_active = true) : findRoom rooms rm.id = some rm := by
  induction rooms with
  | nil => cases hm
  | cons a rest ih =>
    simp only [List.map_cons, List.nodup_cons] at hu
    rcases List.mem_cons.mp hm with hm | hm
    · subst hm
      unfold findRoom
      rw [if_pos ⟨rfl, ha⟩]
    · have hne : ¬(a.id = rm.id ∧ a.is_active = true) := by
        rintro ⟨hid, -⟩
        exact hu.1 (hid ▸ List.mem_map_of_mem Room.id hm)
      unfold findRoom
      rw [if_neg hne]
      exact ih hu.2 hm

theorem mem_roomIds {recs : AvailDB} {rid : Nat} :
    rid ∈ roomIds recs ↔ ∃ r ∈ recs, r.room_id = rid := by
  unfold roomIds
  rw [List.mem_dedup]
  simp

theorem mem_searchMatch {db : AvailDB} {s e : Nat} {r : AvailRec} :
    r ∈ searchMatch db s e ↔
      r ∈ db ∧ s ≤ r.date ∧ r.date ≤ e ∧ 0 < r.available_units := by
  unfold searchMatch
  rw [List.mem_filter]
  simp

theorem isSuccess_iff {r : BookingResult} :
    isSuccess r ↔ ∃ b, r = BookingResult.created b := by
  cases r <;> simp [isSuccess]

theorem getDateRange_self (s : Nat) : getDateRange s s = [s] := by
  unfold getDateRange
  have h1 : List.range 1 = [0] := rfl
  simp [h1]

/-! The claims. -/

/-- C1. The claim says the day-set of a booking excludes the checkout day
and the total price counts end minus start nights. The code computes
getDateRange inclusively at both endpoints and prices every day of that
list: the 2025-12-01 to 2025-12-03 request decrements three days including
the checkout day 2025-12-03 and stores total price 100 x 3 x 2 = 600,
while the nights virtual of the very same booking record reports 2 nights
so the stored price contradicts the record's own night count. -/
theorem c1_checkout_day_decremented_and_priced :
    getDateRange 20423 20425 = [20423, 20424, 20425] ∧
    (postBooking false 0 "tok" 5000 3600 7 (some "a@b.c") exSys3 exReqDec).2 =
      BookingResult.created
        { id := 0, user_id := 7, room_id := 1, start_date := 20423,
          end_date := 20425, quantity := 2, total_price_cents := 600,
          status := BookingStatus.confirmed, notes := none,
          contact_email := some "a@b.c" } ∧
    findRec (postBooking false 0 "tok" 5000 3600 7 (some "a@b.c")
        exSys3 exReqDec).1.avail 1 20425 =
      some { room_id := 1, date := 20425, total_units := 5, available_units := 3 } ∧
    bookingNights
        { id := 0, user_id := 7, room_id := 1, start_date := 20423,
          end_date := 20425, quantity := 2, total_price_cents := 600,
          status := BookingStatus.confirmed, notes := none,
          contact_email := some "a@b.c" } = 2 ∧
    (600 : Nat) ≠ 100 * 2 * 2 := by
  refine ⟨by decide, by decide, by decide, by decide, by decide⟩

/-- C2 counterexample. Without MongoDB transaction support (standalone
server, serverInfo.transactionsSupported false) an attempt over days 10
and 11 that fails on day 11 leaves day 10 decremented from 5 to 4: the
earlier decrement is not restored before the 409 is returned. -/
theorem c2_counterexample :
    (postBooking false 0 "tok" 5000 3600 7 none exSysC2 exReqC2).2 =
      BookingResult.insufficient 11 ∧
    findRec exSysC2.avail 1 10 =
      some { room_id := 1, date := 10, total_units := 5, available_units := 5 } ∧
    findRec (postBooking false 0 "tok" 5000 3600 7 none exSysC2 exReqC2).1.avail 1 10 =
      some { room_id := 1, date := 10, total_units := 5, available_units := 4 } := by
  refine ⟨by decide, by decide, by decide⟩

/-- C2 amended. When the server supports transactions (a session is
started), a booking attempt that ends in the insufficient-availability
outcome leaves the availability ledger exactly as it was before the
attempt (days 1..k-1 restored by the transaction abort, day k never
written) and creates no booking record; without transaction support the
earlier decrements persist, as the counterexample shows. -/
theorem c2_rollback_with_transactions {now : Nat} {tok : String}
    {lt it uid : Nat} {mail : Option String} {sys sys' : Sys}
    {req : BookingReq} {d : Nat}
    (h : postBooking true now tok lt it uid mail sys req =
      (sys', BookingResult.insufficient d)) :
    sys'.avail = sys.avail ∧ sys'.bookings = sys.bookings := by
  obtain ⟨-, hav, hbk⟩ := postBooking_insufficient_inversion h
  rw [if_pos rfl] at hav
  exact ⟨hav, hbk⟩

theorem c2_witness :
    (postBooking true 0 "tok" 5000 3600 7 none exSysC2 exReqC2).1.avail =
      exSysC2.avail ∧
    (postBooking true 0 "tok" 5000 3600 7 none exSysC2 exReqC2).1.bookings =
      exSysC2.bookings :=
  c2_rollback_with_transactions
    (show postBooking true 0 "tok" 5000 3600 7 none exSysC2 exReqC2 =
      ((postBooking true 0 "tok" 5000 3600 7 none exSysC2 exReqC2).1,
        BookingResult.insufficient 11) by decide)

/-- C3. A booking request carrying an idempotency token with a stored
result short-circuits: it returns the stored booking id and the whole
system state (ledger, bookings, redis) is returned untouched, so nothing
is decremented and no booking is created. -/
theorem c3_idempotent_replay {txn : Bool} {now : Nat} {tok : String}
    {lt it uid : Nat} {mail : Option String} {sys : Sys} {req : BookingReq}
    {k prev : String}
    (hk : req.idemKey = some k)
    (hprev : getIdempotencyKey sys.redis now k = some prev) :
    postBooking txn now tok lt it uid mail sys req =
      (sys, BookingResult.idempotent prev) := by
  unfold postBooking
  rw [hk]
  simp only []
  rw [hprev]

theorem c3_witness :
    exReqC3.idemKey = some "abc" ∧
    getIdempotencyKey exSysC3.redis 0 "abc" = some "42" ∧
    postBooking false 0 "tok" 5000 3600 7 none exSysC3 exReqC3 =
      (exSysC3, BookingResult.idempotent "42") :=
  ⟨rfl, by decide, c3_idempotent_replay rfl (by decide)⟩

/-- C4. The conditional decrement on a uniquely keyed ledger: for the
record stored under (room, date), the update succeeds exactly when the
requested quantity is at most the available units; on success the record's
available units drop by exactly the quantity and every other record is
untouched; on failure the whole ledger is returned unchanged. -/
theorem c4_tryDecrement_contract {db : AvailDB} {room qty d : Nat}
    {r : AvailRec} (hk : keyed db) (hr : findRec db room d = some r) :
    ((tryDecrement db room qty d).2 = true ↔ (qty : Int) ≤ r.available_units) ∧
    ((qty : Int) ≤ r.available_units →
      findRec (tryDecrement db room qty d).1 room d =
        some { r with available_units := r.available_units - qty }) ∧
    ((tryDecrement db room qty d).2 = false → (tryDecrement db room qty d).1 = db) ∧
    (∀ room' d', ¬(room' = room ∧ d' = d) →
      findRec (tryDecrement db room qty d).1 room' d' = findRec db room' d') := by
  refine ⟨?_, ?_, ?_, ?_⟩
  · rw [tryDecrement_flag hk hr]
    exact decide_eq_true_iff
  · intro hq
    exact tryDecrement_findRec_self hk hr hq
  · exact tryDecrement_fail_eq
  · intro room' d' hne
    exact tryDecrement_findRec_other hne

theorem c4_witness :
    keyed exAvailC10 ∧
    findRec exAvailC10 1 10 =
      some { room_id := 1, date := 10, total_units := 5, available_units := 5 } ∧
    (tryDecrement exAvailC10 1 2 10).2 = true ∧
    findRec (tryDecrement exAvailC10 1 2 10).1 1 10 =
      some { room_id := 1, date := 10, total_units := 5, available_units := 3 } := by
  have hk : keyed exAvailC10 := by decide
  have hr : findRec exAvailC10 1 10 =
      some { room_id := 1, date := 10, total_units := 5, available_units := 5 } := by
    decide
  refine ⟨hk, hr, ?_, ?_⟩
  · exact (c4_tryDecrement_contract hk hr).1.mpr (by decide)
  · exact (c4_tryDecrement_contract hk hr).2.1 (by decide)

/-- C5. Along every sequence of engine operations (booking attempts under
either transaction mode and cancellations), every availability record
keeps 0 <= available_units <= total_units: the conditional decrement never
drives a counter negative and no operation raises a counter above its
total. -/
theorem c5_availability_invariant {sys : Sys} (ops : List Op)
    (h : availInv sys.avail) : availInv (applyOps sys ops).avail :=
  applyOps_inv ops h

theorem c5_witness :
    availInv exSysC2.avail ∧
    availInv (applyOps exSysC2
      [Op.book false 0 "tok" 5000 3600 7 none exReqC2,
       Op.cancelOp 0 "why" 3]).avail := by
  have h : availInv exSysC2.avail := by decide
  exact ⟨h, c5_availability_invariant
    [Op.book false 0 "tok" 5000 3600 7 none exReqC2,
     Op.cancelOp 0 "why" 3] h⟩

/-- C6 counterexample. With a record of zero available units on day 10 and
five units on day 11, the claim says the minimum over the inclusive
day-set drops to zero and the room is excluded with reported availability
equal to that minimum; the pipeline instead filters the zero day out
before grouping and returns the room with reported availability 5. -/
theorem c6_counterexample :
    (exRoom, (5 : Int)) ∈ searchRooms [exRoom] exAvailC6 10 11 ∧
    specRangeMin exAvailC6 1 10 11 = 0 := by
  refine ⟨by decide, by decide⟩

/-- C6 amended. The search returns an active room exactly when at least
one day of the query range has a record with positive available units,
and the reported availability is the minimum of available_units over the
in-range records that are positive: days with zero availability (and days
without a record) are dropped from the minimum instead of zeroing it and
excluding the room. -/
theorem c6_search_characterization {rooms : List Room} {db : AvailDB}
    {s e : Nat} (hu : (rooms.map Room.id).Nodup) (rm : Room) (m : Int) :
    (rm, m) ∈ searchRooms rooms db s e ↔
      rm ∈ rooms ∧ rm.is_active = true ∧
      (∃ r ∈ db, r.room_id = rm.id ∧ s ≤ r.date ∧ r.date ≤ e ∧
        0 < r.available_units ∧ r.available_units = m) ∧
      (∀ r ∈ db, r.room_id = rm.id → s ≤ r.date → r.date ≤ e →
        0 < r.available_units → m ≤ r.available_units) := by
  constructor
  · intro hmem
    unfold searchRooms at hmem
    rw [List.mem_filterMap] at hmem
    obtain ⟨rid, hrid, hf⟩ := hmem
    cases hgm : groupMin (searchMatch db s e) rid with
    | none => rw [hgm] at hf; cases hf
    | some mv =>
      rw [hgm] at hf
      simp only [] at hf
      split at hf
      · rename_i hpos
        cases hfr : findRoom rooms rid with
        | none => rw [hfr] at hf; cases hf
        | some rm1 =>
          rw [hfr] at hf
          cases hf
          obtain ⟨hmem1, hid1, hact1⟩ := findRoom_some hfr
          unfold groupMin at hgm
          cases hl : ((searchMatch db s e).filter
              (fun r => decide (r.room_id = rid))).map
              (fun r => r.available_units) with
          | nil => rw [hl] at hgm; cases hgm
          | cons v vs =>
            rw [hl] at hgm
            simp only [] at hgm
            cases hgm
            refine ⟨hmem1, hact1, ?_, ?_⟩
            · have hmm : vs.foldl min v ∈ v :: vs := foldl_min_mem vs v
              rw [← hl] at hmm
              rw [List.mem_map] at hmm
              obtain ⟨r0, hr0, hr0v⟩ := hmm
              rw [List.mem_filter] at hr0
              obtain ⟨hr0m, hr0id⟩ := hr0
              rw [mem_searchMatch] at hr0m
              refine ⟨r0, hr0m.1, ?_, hr0m.2.1, hr0m.2.2.1, hr0m.2.2.2, hr0v⟩
              rw [hid1]
              exact of_decide_eq_true hr0id
            · intro r hr hrid2 hs2 he2 hp2
              have hrmem : r.available_units ∈ v :: vs := by
                rw [← hl]
                rw [List.mem_map]
                refine ⟨r, ?_, rfl⟩
                rw [List.mem_filter]
                refine ⟨mem_searchMatch.mpr ⟨hr, hs2, he2, hp2⟩, ?_⟩
                rw [hid1] at hrid2
                exact decide_eq_true hrid2
              rcases List.mem_cons.mp hrmem with hx | hx
              · rw [hx]
                exact foldl_min_le_init vs v
              · exact foldl_min_le_mem hx
      · cases hf
  · rintro ⟨hmem, hact, ⟨r1, hr1m, hr1id, hr1s, hr1e, hr1p, hr1v⟩, hlb⟩
    unfold searchRooms
    rw [List.mem_filterMap]
    refine ⟨rm.id, ?_, ?_⟩
    · rw [mem_roomIds]
      exact ⟨r1, mem_searchMatch.mpr ⟨hr1m, hr1s, hr1e, hr1p⟩, hr1id⟩
    · have hfr : findRoom rooms rm.id = some rm := findRoom_of_mem hu hmem hact
      cases hl : ((searchMatch db s e).filter
          (fun r => decide (r.room_id = rm.id))).map
          (fun r => r.available_units) with
      | nil =>
        exfalso
        have : r1.available_units ∈ ((searchMatch db s e).filter
            (fun r => decide (r.room_id = rm.id))).map
            (fun r => r.available_units) := by
          rw [List.mem_map]
          refine ⟨r1, ?_, rfl⟩
          rw [List.mem_filter]
          exact ⟨mem_searchMatch.mpr ⟨hr1m, hr1s, hr1e, hr1p⟩, decide_eq_true hr1id⟩
        rw [hl] at this
        cases this
      | cons v vs =>
        have hgm : groupMin (searchMatch db s e) rm.id = some (vs.foldl min v) := by
          unfold groupMin
          rw [hl]
        have hall : ∀ x ∈ v :: vs, m ≤ x := by
          intro x hx
          rw [← hl] at hx
          rw [List.mem_map] at hx
          obtain ⟨r0, hr0, hr0v⟩ := hx
          rw [List.mem_filter] at hr0
          obtain ⟨hr0m, hr0id⟩ := hr0
          rw [mem_searchMatch] at hr0m
          rw [← hr0v]
          exact hlb r0 hr0m.1 (of_decide_eq_true hr0id) hr0m.2.1 hr0m.2.2.1 hr0m.2.2.2
        have hattain : vs.foldl min v ≤ m := by
          have hin : r1.available_units ∈ v :: vs := by
            rw [← hl]
            rw [List.mem_map]
            refine ⟨r1, ?_, rfl⟩
            rw [List.mem_filter]
            exact ⟨mem_searchMatch.mpr ⟨hr1m, hr1s, hr1e, hr1p⟩, decide_eq_true hr1id⟩
          rw [← hr1v]
          rcases List.mem_cons.mp hin with hx | hx
          · rw [hx]
            exact foldl_min_le_init vs v
          · exact foldl_min_le_mem hx
        have heq : vs.foldl min v = m :=
          le_antisymm hattain (le_foldl_min hall)
        rw [hgm]
        simp only []
        rw [heq]
        rw [if_pos (show (0 : Int) < m by rw [← hr1v]; exact hr1p)]
        rw [hfr]

theorem c6_witness :
    ([exRoom].map Room.id).Nodup ∧
    (exRoom, (5 : Int)) ∈ searchRooms [exRoom]
      [ { room_id := 1, date := 10, total_units := 5, available_units := 7 },
        { room_id := 1, date := 11, total_units := 5, available_units := 5 } ] 10 11 := by
  have hu : ([exRoom].map Room.id).Nodup := by decide
  exact ⟨hu, (c6_search_characterization hu exRoom 5).mpr (by decide)⟩

/-- C7. The cancel method marks the booking cancelled with the reason and
timestamp and rejects a second cancellation, but it performs no
availability write at all: the ledger after a successful cancellation is
identical to the ledger before it, although the booking's two nights were
decremented at creation, contradicting the repository's own schema
documentation which says cancel restores availability. -/
theorem c7_cancel_restores_nothing :
    (cancelBooking exSysC7 0 "user request" 99).2 = true ∧
    (cancelBooking exSysC7 0 "user request" 99).1.avail = exSysC7.avail ∧
    (cancelBooking exSysC7 0 "user request" 99).1.bookings =
      [{ exBookingC7 with
          status := BookingStatus.cancelled
          cancellation_reason := some "user request"
          cancelled_at := some 99 }] ∧
    cancelBooking (cancelBooking exSysC7 0 "user request" 99).1 0 "again" 100 =
      ((cancelBooking exSysC7 0 "user request" 99).1, false) := by
  refine ⟨by decide, by decide, by decide, by decide⟩

/-- C8. The lock protocol: acquisition succeeds exactly when no unexpired
entry is stored under the lock key (set-if-absent with a lease of
now + timeout), a failed acquisition leaves the store untouched, and
release deletes the entry exactly when the stored, unexpired owner token
equals the caller's token, leaving the store unchanged on a token
mismatch or when no live entry exists. -/
theorem c8_lock_protocol (st : RedisStore) (now : Nat) (k tok : String)
    (timeout : Nat) :
    ((acquireLock st now k tok timeout).2 = true ↔ rget st now k = none) ∧
    ((acquireLock st now k tok timeout).2 = true →
      rfind (acquireLock st now k tok timeout).1 k = some (tok, now + timeout)) ∧
    ((acquireLock st now k tok timeout).2 = false →
      (acquireLock st now k tok timeout).1 = st) ∧
    (∀ cur, rget st now k = some cur →
      (cur = tok → releaseLock st now k tok = rdel st k) ∧
      (cur ≠ tok → releaseLock st now k tok = st)) ∧
    (rget st now k = none → releaseLock st now k tok = st) := by
  refine ⟨?_, ?_, ?_, ?_, ?_⟩
  · cases hr : rget st now k with
    | some v => simp [acquireLock, hr]
    | none => simp [acquireLock, hr]
  · intro hacq
    cases hr : rget st now k with
    | some v => simp [acquireLock, hr] at hacq
    | none => simp [acquireLock, hr, rsetEntry, rfind]
  · intro hacq
    cases hr : rget st now k with
    | some v => simp [acquireLock, hr]
    | none => simp [acquireLock, hr] at hacq
  · intro cur hcur
    constructor
    · intro heq
      subst heq
      simp [releaseLock, hcur]
    · intro hne
      simp [releaseLock, hcur, hne]
  · intro hnone
    simp [releaseLock, hnone]

theorem c8_witness :
    rget [("lock:room:1", "other", 9)] 20 "lock:room:1" = none ∧
    (acquireLock [("lock:room:1", "other", 9)] 20 "lock:room:1" "t1" 30).2 = true ∧
    releaseLock [("lock:room:1", "t1", 50)] 20 "lock:room:1" "t2" =
      [("lock:room:1", "t1", 50)] := by
  refine ⟨by decide, ?_, ?_⟩
  · exact (c8_lock_protocol [("lock:room:1", "other", 9)] 20 "lock:room:1"
      "t1" 30).1.mpr (by decide)
  · exact ((c8_lock_protocol [("lock:room:1", "t1", 50)] 20 "lock:room:1"
      "t2" 30).2.2.2.1 "t1" (by decide)).2 (by decide)

/-- Core of the concurrency argument: when two attempts on the same room
run one after the other (the serialization the lock enforces) and share a
day whose record cannot satisfy their combined demand, they cannot both
end in a created booking: the first success leaves the shared day
decremented below the second demand, so the second day loop cannot
succeed there. -/
theorem serial_no_double_success {txn : Bool} {now : Nat} {tokA tokB : String}
    {lt it uA uB : Nat} {mailA mailB : Option String} {sys : Sys}
    {reqA reqB : BookingReq} {d : Nat} {rec : AvailRec}
    (hk : keyed sys.avail)
    (hroom : reqB.room_id = reqA.room_id)
    (hdA : d ∈ getDateRange reqA.start_date reqA.end_date)
    (hdB : d ∈ getDateRange reqB.start_date reqB.end_date)
    (hrec : findRec sys.avail reqA.room_id d = some rec)
    (hcap : rec.available_units < (reqA.quantity : Int) + reqB.quantity)
    (hsA : isSuccess (postBooking txn now tokA lt it uA mailA sys reqA).2)
    (hsB : isSuccess (postBooking txn now tokB lt it uB mailB
      (postBooking txn now tokA lt it uA mailA sys reqA).1 reqB).2) : False := by
  obtain ⟨b1, hb1⟩ := isSuccess_iff.mp hsA
  obtain ⟨b2, hb2⟩ := isSuccess_iff.mp hsB
  have hpb1 : postBooking txn now tokA lt it uA mailA sys reqA =
      ((postBooking txn now tokA lt it uA mailA sys reqA).1,
        BookingResult.created b1) := by rw [← hb1]
  obtain ⟨rmA, hrmA, hdecA, havA, -⟩ := postBooking_created_inversion hpb1
  obtain ⟨recA, hrecA, hqA, hafterA⟩ :=
    decrementDays_success_effect hk
      (getDateRange_nodup reqA.start_date reqA.end_date) hdecA d hdA
  have hrecAeq : rec = recA := by
    rw [hrecA] at hrec
    cases hrec
    rfl
  subst hrecAeq
  have hkB : keyed (postBooking txn now tokA lt it uA mailA sys reqA).1.avail :=
    postBooking_keyed hk
  have hpb2 : postBooking txn now tokB lt it uB mailB
      (postBooking txn now tokA lt it uA mailA sys reqA).1 reqB =
      ((postBooking txn now tokB lt it uB mailB
        (postBooking txn now tokA lt it uA mailA sys reqA).1 reqB).1,
        BookingResult.created b2) := by rw [← hb2]
  obtain ⟨rmB, hrmB, hdecB, havB, -⟩ := postBooking_created_inversion hpb2
  obtain ⟨recB, hrecB, hqB, -⟩ :=
    decrementDays_success_effect hkB
      (getDateRange_nodup reqB.start_date reqB.end_date) hdecB d hdB
  rw [hroom, havA, hafterA] at hrecB
  cases hrecB
  have hqB2 : (reqB.quantity : Int) ≤ rec.available_units - reqA.quantity := hqB
  omega

/-- C9 counterexample. On a day with two available units, two attempts
each demanding three units have combined demand exceeding capacity, yet
in every reachable interleaving neither succeeds (each alone already
exceeds capacity): the claimed exactly-one-success outcome does not
happen. -/
theorem c9_counterexample :
    findRec exSysC9.avail 1 10 =
      some { room_id := 1, date := 10, total_units := 2, available_units := 2 } ∧
    ((2 : Int) < 3 + 3) ∧
    (¬ isSuccess (runPair false 0 "t1" "t2" 5000 3600 7 8 none none
        exSysC9 exReqC9 exReqC9 Sched.firstThenSecond).2.1 ∧
     ¬ isSuccess (runPair false 0 "t1" "t2" 5000 3600 7 8 none none
        exSysC9 exReqC9 exReqC9 Sched.firstThenSecond).2.2) ∧
    (¬ isSuccess (runPair false 0 "t1" "t2" 5000 3600 7 8 none none
        exSysC9 exReqC9 exReqC9 Sched.secondThenFirst).2.1 ∧
     ¬ isSuccess (runPair false 0 "t1" "t2" 5000 3600 7 8 none none
        exSysC9 exReqC9 exReqC9 Sched.secondThenFirst).2.2) ∧
    (¬ isSuccess (runPair false 0 "t1" "t2" 5000 3600 7 8 none none
        exSysC9 exReqC9 exReqC9 Sched.firstHoldsLock).2.1 ∧
     ¬ isSuccess (runPair false 0 "t1" "t2" 5000 3600 7 8 none none
        exSysC9 exReqC9 exReqC9 Sched.firstHoldsLock).2.2) ∧
    (¬ isSuccess (runPair false 0 "t1" "t2" 5000 3600 7 8 none none
        exSysC9 exReqC9 exReqC9 Sched.secondHoldsLock).2.1 ∧
     ¬ isSuccess (runPair false 0 "t1" "t2" 5000 3600 7 8 none none
        exSysC9 exReqC9 exReqC9 Sched.secondHoldsLock).2.2) := by
  refine ⟨by decide, by decide, ⟨by decide, by decide⟩, ⟨by decide, by decide⟩,
    ⟨by decide, by decide⟩, ⟨by decide, by decide⟩⟩

/-- C9 amended. Under every reachable interleaving of two attempts on the
same room (the lock serializes them or turns one away with lock-busy), if
some shared day's record cannot cover the combined demand then at most
one attempt succeeds: two created bookings never result. Exactly one
success is not guaranteed: both attempts can fail, as the counterexample
shows. -/
theorem c9_no_double_success {txn : Bool} {now : Nat} {tok1 tok2 : String}
    {lt it u1 u2 : Nat} {mail1 mail2 : Option String} {sys : Sys}
    {req1 req2 : BookingReq} {d : Nat} {rec : AvailRec} (sched : Sched)
    (hk : keyed sys.avail)
    (hroom : req2.room_id = req1.room_id)
    (hd1 : d ∈ getDateRange req1.start_date req1.end_date)
    (hd2 : d ∈ getDateRange req2.start_date req2.end_date)
    (hrec : findRec sys.avail req1.room_id d = some rec)
    (hcap : rec.available_units < (req1.quantity : Int) + req2.quantity) :
    ¬(isSuccess (runPair txn now tok1 tok2 lt it u1 u2 mail1 mail2 sys
        req1 req2 sched).2.1 ∧
      isSuccess (runPair txn now tok1 tok2 lt it u1 u2 mail1 mail2 sys
        req1 req2 sched).2.2) := by
  cases sched with
  | firstThenSecond =>
    rintro ⟨hs1, hs2⟩
    simp only [runPair] at hs1 hs2
    exact serial_no_double_success hk hroom hd1 hd2 hrec hcap hs1 hs2
  | secondThenFirst =>
    rintro ⟨hs1, hs2⟩
    simp only [runPair] at hs1 hs2
    have hrec2 : findRec sys.avail req2.room_id d = some rec := by
      rw [hroom]
      exact hrec
    have hcap2 : rec.available_units < (req2.quantity : Int) + req1.quantity := by
      omega
    exact serial_no_double_success hk hroom.symm hd2 hd1 hrec2 hcap2 hs2 hs1
  | firstHoldsLock =>
    rintro ⟨-, hs2⟩
    simp only [runPair] at hs2
    exact hs2
  | secondHoldsLock =>
    rintro ⟨hs1, -⟩
    simp only [runPair] at hs1
    exact hs1

theorem c9_witness :
    keyed exSysC9.avail ∧
    ¬(isSuccess (runPair false 0 "t1" "t2" 5000 3600 7 8 none none
        exSysC9 exReqC9 exReqC9 Sched.firstThenSecond).2.1 ∧
      isSuccess (runPair false 0 "t1" "t2" 5000 3600 7 8 none none
        exSysC9 exReqC9 exReqC9 Sched.firstThenSecond).2.2) := by
  have hk : keyed exSysC9.avail := by decide
  exact ⟨hk, @c9_no_double_success false 0 "t1" "t2" 5000 3600 7 8 none none
    exSysC9 exReqC9 exReqC9 10 { room_id := 1, date := 10, total_units := 2, available_units := 2 }
    Sched.firstThenSecond hk rfl (by decide) (by decide) (by decide) (by decide)⟩

/-- C10. A request with end_date equal to start_date passes the route's
date validation (only a strictly earlier end date is rejected), the day
loop then decrements the single day, and booking creation fails the
pre-save invariant requiring a strictly later end date, so the handler
answers with an error after the ledger was already decremented (shown
here in the no-transaction mode, where the decrement persists) and no
booking record is stored. -/
theorem c10_equal_dates_decrement_then_error {today now s qty lt it uid : Nat}
    {tok : String} {sys : Sys} {rm : Room} {rec : AvailRec}
    (htoday : today ≤ s)
    (hk : keyed sys.avail)
    (hrm : findRoom sys.rooms rm.id = some rm)
    (hrec : findRec sys.avail rm.id s = some rec)
    (hq : (qty : Int) ≤ rec.available_units)
    (hlock : rget sys.redis now ("lock:room:" ++ toString rm.id) = none) :
    validateDateRange today s s = true ∧
    (postBooking false now tok lt it uid none sys
        { room_id := rm.id, start_date := s, end_date := s, quantity := qty }).2 =
      BookingResult.serverError ∧
    findRec (postBooking false now tok lt it uid none sys
        { room_id := rm.id, start_date := s, end_date := s, quantity := qty }).1.avail
        rm.id s = some { rec with available_units := rec.available_units - qty } ∧
    (postBooking false now tok lt it uid none sys
        { room_id := rm.id, start_date := s, end_date := s, quantity := qty }).1.bookings =
      sys.bookings := by
  have hval : validateDateRange today s s = true := by
    unfold validateDateRange
    rw [if_neg (by omega), if_neg (by omega), if_neg (by omega)]
  have hflag : (tryDecrement sys.avail rm.id qty s).2 = true := by
    rw [tryDecrement_flag hk hrec]
    exact decide_eq_true hq
  have hdd : decrementDays sys.avail rm.id qty [s] =
      ((tryDecrement sys.avail rm.id qty s).1, none) := by
    simp only [decrementDays, hflag, if_true]
  have hcrit : bookingCritical false uid none sys
      { room_id := rm.id, start_date := s, end_date := s, quantity := qty } =
      ((tryDecrement sys.avail rm.id qty s).1, none, BookingResult.serverError) := by
    unfold bookingCritical
    simp only [contactEmailCheck, normalizeDate]
    rw [hrm]
    simp only [getDateRange_self, hdd, bookingPreSaveOk]
    simp
  have hacq2 : (acquireLock sys.redis now ("lock:room:" ++ toString rm.id) tok lt).2 = true := by
    unfold acquireLock
    rw [hlock]
  have hpost : postBooking false now tok lt it uid none sys
      { room_id := rm.id, start_date := s, end_date := s, quantity := qty } =
      ({ rooms := sys.rooms
         avail := (tryDecrement sys.avail rm.id qty s).1
         bookings := sys.bookings
         redis := releaseLock (acquireLock sys.redis now
            ("lock:room:" ++ toString rm.id) tok lt).1 now
            ("lock:room:" ++ toString rm.id) tok },
       BookingResult.serverError) := by
    unfold postBooking
    simp only [hacq2, hcrit]
    rfl
  refine ⟨hval, ?_, ?_, ?_⟩
  · rw [hpost]
  · rw [hpost]
    exact tryDecrement_findRec_self hk hrec hq
  · rw [hpost]

theorem c10_witness :
    validateDateRange 5 10 10 = true ∧
    (postBooking false 0 "tok" 5000 3600 7 none exSysC10
        { room_id := 1, start_date := 10, end_date := 10, quantity := 1 }).2 =
      BookingResult.serverError ∧
    findRec (postBooking false 0 "tok" 5000 3600 7 none exSysC10
        { room_id := 1, start_date := 10, end_date := 10, quantity := 1 }).1.avail 1 10 =
      some { room_id := 1, date := 10, total_units := 5, available_units := 4 } ∧
    (postBooking false 0 "tok" 5000 3600 7 none exSysC10
        { room_id := 1, start_date := 10, end_date := 10, quantity := 1 }).1.bookings =
      exSysC10.bookings :=
  @c10_equal_dates_decrement_then_error 5 0 10 1 5000 3600 7 "tok" exSysC10 exRoom
    { room_id := 1, date := 10, total_units := 5, available_units := 5 }
    (by decide) (by decide) (by decide) (by decide) (by decide) (by decide)

end RoomBooking
